import Mathlib

/-!
Shallow embedding of the openx core (alias resolution, launch-argument
preparation, termination, doctor aggregation, configuration persistence).

Go maps are modelled as association lists (`List (String × k)` with
`List.lookup`), `runtime.GOOS` and the other ambient inputs as an explicit
`Env` record, and filesystem / process effects as boolean oracles passed to
the functions that consume them.  Strings are Lean `String`s; the ASCII
`Char.toLower` models `strings.ToLower` (all keys involved are ASCII).
-/

namespace Openx

/-- Ambient environment of one invocation: `runtime.GOOS`, the home
directory as returned by `getHomeDir` (empty when unavailable), the
`user.Lookup` table (home directory per user name) and the working
directory as returned by `os.Getwd`. -/
structure Env where
  gos : String
  home : String
  userLookup : String → Option String
  cwd : String

/-! ### Path utilities (filepath.Clean / Join / Base / Dir, unix separators) -/

/-- Whether the first list starts with the second. -/
def listStartsWith : List Char → List Char → Bool
  | _, [] => true
  | [], _ :: _ => false
  | a :: as, b :: bs => a == b && listStartsWith as bs

/-- Go `strings.HasPrefix`. -/
def strStartsWith (s pre : String) : Bool :=
  listStartsWith s.data pre.data

/-- Go `strings.HasSuffix`. -/
def strEndsWith (s sfx : String) : Bool :=
  listStartsWith s.data.reverse sfx.data.reverse

/-- Substring containment (Go `strings.Contains`). -/
def strContainsSub (s pat : String) : Bool :=
  s.data.tails.any (fun t => listStartsWith t pat.data)

/-- Splitting on a single separator character (Go `strings.Split` with a
one-character separator), keeping empty segments. -/
def splitOnCharAux (c : Char) : List Char → List Char → List String
  | [], acc => [String.mk acc.reverse]
  | x :: xs, acc =>
    if x == c then String.mk acc.reverse :: splitOnCharAux c xs []
    else splitOnCharAux c xs (x :: acc)

/-- Split a string on a separator character. -/
def splitOnChar (c : Char) (s : String) : List String :=
  splitOnCharAux c s.data []


/-- One step of the path-cleaning fold: `..` pops the previous component
(or is kept at the head of a relative path), everything else is pushed. -/
def cleanFold (rooted : Bool) (acc : List String) (c : String) : List String :=
  if c = ".." then
    match acc with
    | [] => if rooted then [] else [".."]
    | h :: t => if h = ".." then c :: acc else t
  else c :: acc

/-- Go `path.Clean` on slash-separated paths: drop empty and `.` components,
resolve `..` against preceding components, keep the rooted prefix. -/
def goClean (path : String) : String :=
  if path = "" then "."
  else
    let rooted := strStartsWith path "/"
    let comps := (splitOnChar '/' path).filter (fun c => c != "" && c != ".")
    let out := (comps.foldl (cleanFold rooted) []).reverse
    let s := String.intercalate "/" out
    if rooted then "/" ++ s
    else if s = "" then "." else s

/-- Go `filepath.Join` of two elements: empty elements are skipped, the
result is cleaned; the join of two empty strings is empty. -/
def goJoin (a b : String) : String :=
  if a = "" && b = "" then ""
  else if a = "" then goClean b
  else if b = "" then goClean a
  else goClean (a ++ "/" ++ b)

/-- Go `filepath.Base`: strip trailing slashes, take the last element,
`"."` for the empty path and `"/"` for an all-slash path. -/
def goBase (path : String) : String :=
  if path = "" then "."
  else
    let p := String.mk ((path.data.reverse.dropWhile (fun c => c == '/')).reverse)
    let name := String.mk ((p.data.reverse.takeWhile (fun c => c != '/')).reverse)
    if name = "" then "/" else name

/-- Go `filepath.Dir`: everything up to and including the final slash,
cleaned (`"."` when there is no slash). -/
def goDir (path : String) : String :=
  goClean (String.mk ((path.data.reverse.dropWhile (fun c => c != '/')).reverse))

/-- Go `strings.TrimSuffix`. -/
def goTrimSuffix (s sfx : String) : String :=
  if strEndsWith s sfx then s.dropRight sfx.length else s

/-- Go `strings.ToLower`, modelled on the ASCII range. -/
def goToLower (s : String) : String :=
  String.mk (s.data.map Char.toLower)

/-- The `~user` branch of `expandTilde`: on non-windows systems look the
user name (between `~` and the first slash) up and join the rest onto the
user's home directory; otherwise return the path unchanged. -/
def tildeUserBranch (env : Env) (path : String) : String :=
  if env.gos ≠ "windows" then
    let sep := path.data.indexOf? '/'
    let username :=
      match sep with
      | none => path.drop 1
      | some i => (path.take i).drop 1
    let rest :=
      match sep with
      | none => ""
      | some i => path.drop (i + 1)
    if username ≠ "" then
      match env.userLookup username with
      | some hd => if rest = "" then hd else goJoin hd rest
      | none => path
    else path
  else path

/-- `expandTilde` from the shared config package (also used by the resolver
utilities): expand `~` and `~/rest` against the home directory when it is
known, fall through to the `~user` branch otherwise. -/
def expandTilde (env : Env) (path : String) : String :=
  if path = "" then path
  else if path.front ≠ '~' then path
  else if (path = "~" || strStartsWith path "~/") && env.home ≠ "" then
    if path = "~" then env.home else goJoin env.home (path.drop 2)
  else tildeUserBranch env path

/-! ### Data model (shared config package) -/

/-- `App` from the shared config package: the inline per-OS path map and
the optional explicit kill-pattern list (empty when absent). -/
structure App where
  paths : List (String × String)
  kill : List String
deriving Repr, DecidableEq

/-- `Config`: the applications map and the aliases map. -/
structure Config where
  apps : List (String × App)
  aliases : List (String × String)
deriving Repr, DecidableEq

/-- `App.GetLaunchPath`: the tilde-expanded per-OS entry when present and
non-empty, `""` otherwise. -/
def App.GetLaunchPath (env : Env) (a : App) : String :=
  match a.paths.lookup env.gos with
  | some path => if path ≠ "" then expandTilde env path else ""
  | none => ""

/-- `processNameExceptions`: bundle display names whose process name
differs. -/
def ProcessNameExceptions : List (String × String) :=
  [("Visual Studio Code", "Code"), ("Android Studio", "studio"),
   ("IntelliJ IDEA", "idea")]

/-- A Go map read `m[k]` on a string-valued map: `""` when the key is
absent. -/
def mapGetD (m : List (String × String)) (k : String) : String :=
  (m.lookup k).getD ""

/-- `App.DeriveKillPatterns`: derive kill patterns from the launch path's
base name; on darwin strip `.app` and remap through the exception table,
on windows strip `.exe`, elsewhere (linux and the default arm alike) use
the base name unchanged. -/
def App.DeriveKillPatterns (env : Env) (a : App) : List String :=
  let launchPath := a.GetLaunchPath env
  if launchPath = "" then []
  else
    let baseName := goBase launchPath
    if env.gos = "darwin" then
      if strEndsWith baseName ".app" then
        let appName := goTrimSuffix baseName ".app"
        let mapped := mapGetD ProcessNameExceptions appName
        if mapped ≠ "" then [mapped] else [appName]
      else [baseName]
    else if env.gos = "windows" then
      if strEndsWith baseName ".exe" then [goTrimSuffix baseName ".exe"]
      else [baseName]
    else [baseName]

/-- `App.GetKillPatterns`: the explicit list when non-empty, else the
derived one. -/
def App.GetKillPatterns (env : Env) (a : App) : List String :=
  if a.kill.length > 0 then a.kill else a.DeriveKillPatterns env

/-- The kill-pattern list as the spec words it: the explicit `kill` list
verbatim when non-empty; otherwise, from the resolved launch path's base
name: on darwin strip a `.app` suffix and return the exception table's
mapped name when the stripped name is a key of it; on windows strip a
`.exe` suffix; on any other OS the base name unchanged. -/
def killPatternsSpec (env : Env) (a : App) : List String :=
  if a.kill ≠ [] then a.kill
  else
    let lp := a.GetLaunchPath env
    if lp = "" then []
    else
      let b := goBase lp
      if env.gos = "darwin" then
        if strEndsWith b ".app" then
          let stripped := goTrimSuffix b ".app"
          match ProcessNameExceptions.lookup stripped with
          | some m => [m]
          | none => [stripped]
        else [b]
      else if env.gos = "windows" then
        if strEndsWith b ".exe" then [goTrimSuffix b ".exe"] else [b]
      else [b]

/-- Every value stored in the exception table is a non-empty string. -/
theorem exceptions_lookup_ne_empty (s m : String)
    (h : ProcessNameExceptions.lookup s = some m) : m ≠ "" := by
  simp only [ProcessNameExceptions, List.lookup] at h
  split at h
  · injection h with h2; subst h2; decide
  · split at h
    · injection h with h2; subst h2; decide
    · split at h
      · injection h with h2; subst h2; decide
      · exact absurd h (by simp)

/-- C1. For every application the computed kill-pattern list agrees with
the spec's description: explicit `kill` verbatim when non-empty, otherwise
derived from the launch path's base name with per-OS suffix stripping and
the darwin exception table. -/
theorem getKillPatterns_matches_spec (env : Env) (a : App) :
    a.GetKillPatterns env = killPatternsSpec env a := by
  unfold App.GetKillPatterns killPatternsSpec App.DeriveKillPatterns mapGetD
  by_cases hk : a.kill = []
  · rw [if_neg (show ¬(a.kill.length > 0) by rw [hk]; exact Nat.lt_irrefl 0),
      if_neg (show ¬(a.kill ≠ []) from fun h => h hk)]
    dsimp only
    by_cases hlp : a.GetLaunchPath env = ""
    · rw [if_pos hlp, if_pos hlp]
    · rw [if_neg hlp, if_neg hlp]
      by_cases hd : env.gos = "darwin"
      · rw [if_pos hd, if_pos hd]
        by_cases ha : strEndsWith (goBase (a.GetLaunchPath env)) ".app" = true
        · rw [if_pos ha, if_pos ha]
          cases h : ProcessNameExceptions.lookup
              (goTrimSuffix (goBase (a.GetLaunchPath env)) ".app") with
          | some m =>
            simp only [Option.getD_some]
            rw [if_pos (exceptions_lookup_ne_empty _ _ h)]
          | none =>
            simp only [Option.getD_none]
            rw [if_neg (show ¬("" ≠ "") from fun hh => hh rfl)]
        · rw [if_neg ha, if_neg ha]
      · rw [if_neg hd, if_neg hd]
  · rw [if_pos (List.length_pos.mpr hk), if_pos hk]

/-! ### Alias resolution (aliases.go) -/

/-- The built-in synonym table set up by `initializeSynonyms`. -/
def builtinSynonyms : List (String × String) :=
  [("code", "vscode"), ("vs", "visualstudio"), ("idea", "intellij"),
   ("ij", "intellij"), ("ws", "webstorm"), ("ps", "phpstorm"),
   ("cl", "clion"), ("pc", "pycharm"), ("rd", "rider"), ("dg", "datagrip"),
   ("rm", "rubymine"), ("ac", "appcode"), ("st", "sublime"), ("vi", "vim"),
   ("npp", "notepadpp"), ("z", "zed"), ("gc", "chrome"), ("ff", "firefox"),
   ("br", "brave"), ("op", "opera"), ("pwsh", "powershell"),
   ("it", "iterm"), ("wez", "wezterm"), ("al", "alacritty"),
   ("pm", "postman"), ("ins", "insomnia"), ("fig", "figma"),
   ("sk", "sketch"), ("not", "notion"), ("obs", "obsidian"),
   ("sl", "slack"), ("dc", "discord"), ("tm", "teams"), ("zm", "zoom"),
   ("tp", "tableplus"), ("sp", "sequel"), ("db", "dbeaver"),
   ("ad", "anydesk")]

/-- `AliasResolver`: a reference to the configuration and the built-in
synonym table (a nil config pointer is modelled as `none`). -/
structure AliasResolver where
  config : Option Config
  synonyms : List (String × String)

/-- `newAliasResolver`: store the config reference and initialize the
synonyms. -/
def newAliasResolver (cfg : Option Config) : AliasResolver :=
  { config := cfg, synonyms := builtinSynonyms }

/-- `AliasResolver.Resolve`: lower-case the token, substitute a synonym,
then look the key up in the config's apps map and return its per-OS
target when present and non-empty.  Pure: it returns `("", false)` on
every miss and can signal no error. -/
def AliasResolver.Resolve (env : Env) (r : AliasResolver) (tok : String) :
    String × Bool :=
  let base0 := goToLower tok
  let base :=
    match r.synonyms.lookup base0 with
    | some v => v
    | none => base0
  match r.config with
  | some cfg =>
    match cfg.apps.lookup base with
    | some app =>
      match app.paths.lookup env.gos with
      | some target => if target ≠ "" then (target, true) else ("", false)
      | none => ("", false)
    | none => ("", false)
  | none => ("", false)

/-- The key a token resolves to: lower-cased, then substituted through the
synonym table. -/
def resolvedKey (r : AliasResolver) (tok : String) : String :=
  match r.synonyms.lookup (goToLower tok) with
  | some v => v
  | none => goToLower tok

/-- C4. `Resolve` reports found exactly when the synonym-substituted,
lower-cased key maps to an application whose per-OS entry is present and
non-empty (and then returns that entry); on every miss — unknown key,
absent per-OS entry, or empty per-OS entry — it returns `("", false)`,
never an error. -/
theorem resolve_found_characterization (env : Env) (cfg : Config)
    (tok : String) :
    ((((newAliasResolver (some cfg)).Resolve env tok).2 = true) ↔
      (∃ app target,
        cfg.apps.lookup (resolvedKey (newAliasResolver (some cfg)) tok) =
          some app ∧
        app.paths.lookup env.gos = some target ∧ target ≠ "" ∧
        ((newAliasResolver (some cfg)).Resolve env tok).1 = target)) ∧
    (((newAliasResolver (some cfg)).Resolve env tok).2 = false →
      ((newAliasResolver (some cfg)).Resolve env tok).1 = "") := by
  unfold AliasResolver.Resolve resolvedKey newAliasResolver
  dsimp only
  cases hs : builtinSynonyms.lookup (goToLower tok) with
  | some v =>
    cases ha : cfg.apps.lookup v with
    | some app =>
      cases hp : app.paths.lookup env.gos with
      | some target =>
        by_cases ht : target = ""
        · simp [hp, ht]
        · simp [hp, ht]
      | none => simp [hp]
    | none => simp
  | none =>
    cases ha : cfg.apps.lookup (goToLower tok) with
    | some app =>
      cases hp : app.paths.lookup env.gos with
      | some target =>
        by_cases ht : target = ""
        · simp [hp, ht]
        · simp [hp, ht]
      | none => simp [hp]
    | none => simp

/-- `Char.toLower` maps into the non-upper-case range, so it is
idempotent. -/
theorem char_ofNat_toNat_valid (n : Nat) (h : n < 55296) :
    (Char.ofNat n).toNat = n := by
  rw [Char.ofNat, dif_pos (Or.inl h)]
  rfl

/-- ASCII lower-casing is idempotent on characters. -/
theorem char_toLower_idem (c : Char) : c.toLower.toLower = c.toLower := by
  by_cases h : 65 ≤ c.toNat ∧ c.toNat ≤ 90
  · have h1 : c.toLower = Char.ofNat (c.toNat + 32) := by
      unfold Char.toLower
      rw [if_pos h]
    have hv : (Char.ofNat (c.toNat + 32)).toNat = c.toNat + 32 :=
      char_ofNat_toNat_valid _ (by omega)
    rw [h1]
    unfold Char.toLower
    rw [if_neg (by rw [hv]; omega)]
  · have h1 : c.toLower = c := by unfold Char.toLower; rw [if_neg h]
    rw [h1, h1]

/-- Lower-casing a string twice is the same as once. -/
theorem goToLower_idem (s : String) :
    goToLower (goToLower s) = goToLower s := by
  unfold goToLower
  simp [List.map_map, Function.comp_def, char_toLower_idem]

/-- C5. Alias resolution is case-insensitive: resolving any token gives
the same result as resolving its lower-cased form, for every resolver,
so tokens equal after lower-casing resolve identically. -/
theorem resolve_case_insensitive (env : Env) (r : AliasResolver)
    (tok : String) :
    r.Resolve env tok = r.Resolve env (goToLower tok) := by
  unfold AliasResolver.Resolve
  rw [goToLower_idem]

/-! ### Termination engine (closer.go) -/

/-- Outcome of a successful `CloseApp`: either some pattern's kill command
succeeded (and was reported), or nothing was running. -/
inductive CloseOutcome where
  | killed (pattern : String)
  | nothingRunning
deriving Repr, DecidableEq

/-- A single-quote character, used in Go error strings. -/
def sq : String := String.singleton (Char.ofNat 39)

/-- The tail of `CloseApp` once an `App` is in hand: fail when the kill
pattern list is empty, otherwise try each pattern in order until one kill
succeeds (`killOk` models `killByPattern pattern` returning nil), reporting
`nothingRunning` when none does.  Always returns `ok` past the pattern
check. -/
def closeWithPatterns (env : Env) (killOk : String → Bool) (tok : String)
    (app : App) : Except String CloseOutcome :=
  let killPatterns := app.GetKillPatterns env
  if killPatterns = [] then
    .error ("no kill patterns available for " ++ tok)
  else
    match killPatterns.find? killOk with
    | some p => .ok (.killed p)
    | none => .ok .nothingRunning

/-- `CloseApp` (closer.go) past the config load: look the token up as an
application key, then as an alias; unknown tokens and aliases to unknown
apps are the error paths, everything else delegates to the pattern loop. -/
def CloseApp (env : Env) (cfg : Config) (killOk : String → Bool)
    (tok : String) : Except String CloseOutcome :=
  match cfg.apps.lookup tok with
  | some app => closeWithPatterns env killOk tok app
  | none =>
    match cfg.aliases.lookup tok with
    | some canonical =>
      match cfg.apps.lookup canonical with
      | some app => closeWithPatterns env killOk tok app
      | none =>
        .error ("alias " ++ sq ++ tok ++ sq ++ " points to unknown app " ++
          sq ++ canonical ++ sq)
    | none => .error ("unknown app: " ++ tok)

/-- C2. The close operation's failure and no-op paths: a token that is
neither an app key nor an alias fails with `unknown app: <name>`; an alias
whose target is not configured fails with the distinct
`alias '<alias>' points to unknown app '<target>'` message; and a known
app with kill patterns none of which matches a running process returns
`ok` and reports that nothing was running — whether the app was named
directly or through an alias. -/
theorem closeApp_error_and_nothing_running (env : Env) (cfg : Config)
    (killOk : String → Bool) (tok : String) :
    (cfg.apps.lookup tok = none → cfg.aliases.lookup tok = none →
      CloseApp env cfg killOk tok = .error ("unknown app: " ++ tok)) ∧
    (∀ c, cfg.apps.lookup tok = none → cfg.aliases.lookup tok = some c →
      cfg.apps.lookup c = none →
      CloseApp env cfg killOk tok =
        .error ("alias " ++ sq ++ tok ++ sq ++ " points to unknown app " ++
          sq ++ c ++ sq)) ∧
    (∀ app, cfg.apps.lookup tok = some app →
      app.GetKillPatterns env ≠ [] →
      (∀ p ∈ app.GetKillPatterns env, killOk p = false) →
      CloseApp env cfg killOk tok = .ok .nothingRunning) ∧
    (∀ c app, cfg.apps.lookup tok = none →
      cfg.aliases.lookup tok = some c → cfg.apps.lookup c = some app →
      app.GetKillPatterns env ≠ [] →
      (∀ p ∈ app.GetKillPatterns env, killOk p = false) →
      CloseApp env cfg killOk tok = .ok .nothingRunning) := by
  refine ⟨fun h1 h2 => ?_, fun c h1 h2 h3 => ?_, fun app h1 h2 h3 => ?_,
    fun c app h0 h1 h2 h3 h4 => ?_⟩
  · unfold CloseApp
    rw [h1, h2]
  · unfold CloseApp
    rw [h1, h2]
    dsimp only
    rw [h3]
  · unfold CloseApp closeWithPatterns
    rw [h1]
    dsimp only
    have hf : (app.GetKillPatterns env).find? killOk = none := by
      rw [List.find?_eq_none]
      intro x hx
      simp [h3 x hx]
    rw [if_neg h2, hf]
  · unfold CloseApp closeWithPatterns
    rw [h0, h1]
    dsimp only
    rw [h2]
    dsimp only
    have hf : (app.GetKillPatterns env).find? killOk = none := by
      rw [List.find?_eq_none]
      intro x hx
      simp [h4 x hx]
    rw [if_neg h3, hf]

/-! ### Batch operations (closer.go / launcher.go) -/

/-- Whether an `Except` result is an error. -/
def isErr {ε α : Type} (e : Except ε α) : Bool :=
  match e with
  | .error _ => true
  | .ok _ => false

/-- The shared shape of the `closeMultipleApps` / `launchMultipleApps`
loop: attempt every entry in order, count failures; returns the attempted
entries in order and the final error count. -/
def attemptAll {α : Type} (attempt : String → Except String α) :
    List String → Nat → List String × Nat
  | [], errors => ([], errors)
  | a :: rest, errors =>
    let errors2 := if isErr (attempt a) then errors + 1 else errors
    let r := attemptAll attempt rest errors2
    (a :: r.1, r.2)

/-- `closeMultipleApps`: attempt to close every alias, then fail with the
aggregate count when any failed. -/
def closeMultipleApps (closeOne : String → Except String CloseOutcome)
    (aliases : List String) : List String × Except String Unit :=
  let r := attemptAll closeOne aliases 0
  (r.1, if r.2 > 0 then .error (toString r.2 ++ " apps failed to close")
    else .ok ())

/-- `launchMultipleApps`: attempt to launch every alias, then fail with
the aggregate count when any failed. -/
def launchMultipleApps (launchOne : String → Except String Unit)
    (aliases : List String) : List String × Except String Unit :=
  let r := attemptAll launchOne aliases 0
  (r.1, if r.2 > 0 then .error (toString r.2 ++ " apps failed to launch")
    else .ok ())

/-- The loop attempts exactly the given entries in order and counts the
failing ones. -/
theorem attemptAll_spec {α : Type} (attempt : String → Except String α) :
    ∀ (l : List String) (n : Nat),
      attemptAll attempt l n =
        (l, n + l.countP (fun a => isErr (attempt a))) := by
  intro l
  induction l with
  | nil => intro n; simp [attemptAll]
  | cons a rest ih =>
    intro n
    rw [attemptAll, ih]
    by_cases h : isErr (attempt a) = true <;>
      simp [h, List.countP_cons] <;> omega

/-- C7. Batch close and batch launch attempt every entry in listed order
regardless of earlier failures, succeed exactly when every entry
succeeded, and otherwise fail with the aggregate failure count. -/
theorem batch_attempts_all_and_aggregates
    (closeOne : String → Except String CloseOutcome)
    (launchOne : String → Except String Unit) (aliases : List String) :
    ((closeMultipleApps closeOne aliases).1 = aliases ∧
     ((closeMultipleApps closeOne aliases).2 = .ok () ↔
       ∀ a ∈ aliases, isErr (closeOne a) = false) ∧
     (aliases.countP (fun a => isErr (closeOne a)) > 0 →
       (closeMultipleApps closeOne aliases).2 =
         .error (toString (aliases.countP (fun a => isErr (closeOne a))) ++
           " apps failed to close"))) ∧
    ((launchMultipleApps launchOne aliases).1 = aliases ∧
     ((launchMultipleApps launchOne aliases).2 = .ok () ↔
       ∀ a ∈ aliases, isErr (launchOne a) = false) ∧
     (aliases.countP (fun a => isErr (launchOne a)) > 0 →
       (launchMultipleApps launchOne aliases).2 =
         .error (toString (aliases.countP (fun a => isErr (launchOne a))) ++
           " apps failed to launch"))) := by
  have key : ∀ (α : Type) (att : String → Except String α),
      (attemptAll att aliases 0).1 = aliases ∧
      (attemptAll att aliases 0).2 =
        aliases.countP (fun a => isErr (att a)) := by
    intro α att
    rw [attemptAll_spec]
    simp
  refine ⟨⟨?_, ?_, ?_⟩, ⟨?_, ?_, ?_⟩⟩
  · unfold closeMultipleApps
    exact (key _ closeOne).1
  · unfold closeMultipleApps
    dsimp only
    rw [(key _ closeOne).2]
    by_cases h : aliases.countP (fun a => isErr (closeOne a)) > 0
    · rw [if_pos h]
      constructor
      · intro hc; cases hc
      · intro hall
        exfalso
        have : aliases.countP (fun a => isErr (closeOne a)) = 0 := by
          rw [List.countP_eq_zero]
          intro a ha
          simp [hall a ha]
        omega
    · rw [if_neg h]
      constructor
      · intro _ a ha
        have h0 : aliases.countP (fun a => isErr (closeOne a)) = 0 := by
          omega
        rw [List.countP_eq_zero] at h0
        have := h0 a ha
        simpa using this
      · intro _; rfl
  · unfold closeMultipleApps
    dsimp only
    rw [(key _ closeOne).2]
    intro h
    rw [if_pos h]
  · unfold launchMultipleApps
    exact (key _ launchOne).1
  · unfold launchMultipleApps
    dsimp only
    rw [(key _ launchOne).2]
    by_cases h : aliases.countP (fun a => isErr (launchOne a)) > 0
    · rw [if_pos h]
      constructor
      · intro hc; cases hc
      · intro hall
        exfalso
        have : aliases.countP (fun a => isErr (launchOne a)) = 0 := by
          rw [List.countP_eq_zero]
          intro a ha
          simp [hall a ha]
        omega
    · rw [if_neg h]
      constructor
      · intro _ a ha
        have h0 : aliases.countP (fun a => isErr (launchOne a)) = 0 := by
          omega
        rw [List.countP_eq_zero] at h0
        have := h0 a ha
        simpa using this
      · intro _; rfl
  · unfold launchMultipleApps
    dsimp only
    rw [(key _ launchOne).2]
    intro h
    rw [if_pos h]

/-! ### Doctor aggregator (doctor.go) -/

/-- `AppStatus`: the per-application record of the doctor report. -/
structure AppStatus where
  name : String
  launchPath : String
  status : String
  killPattern : String
  running : Bool
deriving Repr, DecidableEq

/-- `appExists`: paths containing a separator are checked on disk
(`statOk` models `exists`), bare names through the executable search path
(`lookPathOk` models `exec.LookPath` succeeding). -/
def appExists (statOk lookPathOk : String → Bool) (path : String) : Bool :=
  if path.data.any (fun c => c == '/' || c == '\\') then statOk path
  else lookPathOk path

/-- `checkAppStatus`: kill patterns are joined for display up front; a
missing launch path classifies the app `no-path` and returns early (the
zero value of `Running` is `false`); otherwise the app is `available` or
`missing` by the existence check and `running` is set when any kill
pattern matches a running process (`procRunning` models
`isProcessRunning`). -/
def checkAppStatus (env : Env) (statOk lookPathOk procRunning : String → Bool)
    (name : String) (app : App) : AppStatus :=
  let killPattern := String.intercalate ", " (app.GetKillPatterns env)
  let launchPath := app.GetLaunchPath env
  if launchPath = "" then
    { name := name, launchPath := "(no path for " ++ env.gos ++ ")",
      status := "no-path", killPattern := killPattern, running := false }
  else
    { name := name, launchPath := launchPath,
      status := if appExists statOk lookPathOk launchPath then "available"
        else "missing",
      killPattern := killPattern,
      running := (app.GetKillPatterns env).any procRunning }

/-- `Summary`: the aggregate counters of the doctor report. -/
structure Summary where
  total : Nat
  available : Nat
  missing : Nat
  running : Nat
deriving Repr, DecidableEq

/-- One iteration of `RunDoctor`'s loop over the sorted app names:
increment `Total`, and `Available` / `Missing` / `Running` according to
the app's status record. -/
def doctorStep (env : Env) (statOk lookPathOk procRunning : String → Bool)
    (apps : List (String × App)) (s : Summary) (name : String) : Summary :=
  match apps.lookup name with
  | some app =>
    let st := checkAppStatus env statOk lookPathOk procRunning name app
    { total := s.total + 1,
      available := s.available + (if st.status = "available" then 1 else 0),
      missing := s.missing + (if st.status = "missing" then 1 else 0),
      running := s.running + (if st.running then 1 else 0) }
  | none => s

/-- The summary `RunDoctor` accumulates: fold the step over the app names
in sorted order starting from the zero summary. -/
def runDoctorSummary (env : Env)
    (statOk lookPathOk procRunning : String → Bool) (cfg : Config) :
    Summary :=
  (List.insertionSort (fun a b : String => a ≤ b)
      (cfg.apps.map Prod.fst)).foldl
    (doctorStep env statOk lookPathOk procRunning cfg.apps) ⟨0, 0, 0, 0⟩

/-- The by-name classification used when counting over the key list. -/
def statusPred (env : Env) (statOk lookPathOk procRunning : String → Bool)
    (apps : List (String × App)) (want : String) (n : String) : Bool :=
  match apps.lookup n with
  | some app =>
    (checkAppStatus env statOk lookPathOk procRunning n app).status == want
  | none => false

/-- What the fold computes on any name list, by induction. -/
theorem foldl_doctorStep_counts (env : Env)
    (statOk lookPathOk procRunning : String → Bool)
    (apps : List (String × App)) :
    ∀ (names : List String) (s : Summary),
      (names.foldl (doctorStep env statOk lookPathOk procRunning apps) s).total
          = s.total + names.countP (fun n => (apps.lookup n).isSome) ∧
      (names.foldl (doctorStep env statOk lookPathOk procRunning apps) s).available
          = s.available +
            names.countP (statusPred env statOk lookPathOk procRunning apps "available") ∧
      (names.foldl (doctorStep env statOk lookPathOk procRunning apps) s).missing
          = s.missing +
            names.countP (statusPred env statOk lookPathOk procRunning apps "missing") := by
  intro names
  induction names with
  | nil => intro s; simp
  | cons n rest ih =>
    intro s
    rw [List.foldl_cons]
    have hr := ih (doctorStep env statOk lookPathOk procRunning apps s n)
    refine ⟨?_, ?_, ?_⟩
    · rw [hr.1]
      unfold doctorStep
      cases h : apps.lookup n with
      | some app => simp [h, List.countP_cons]; omega
      | none => simp [h, List.countP_cons]
    · rw [hr.2.1]
      unfold doctorStep statusPred
      cases h : apps.lookup n with
      | some app =>
        simp only [h, List.countP_cons]
        by_cases hs : (checkAppStatus env statOk lookPathOk procRunning n app).status
            = "available" <;> simp [hs] <;> omega
      | none => simp [h, List.countP_cons]
    · rw [hr.2.2]
      unfold doctorStep statusPred
      cases h : apps.lookup n with
      | some app =>
        simp only [h, List.countP_cons]
        by_cases hs : (checkAppStatus env statOk lookPathOk procRunning n app).status
            = "missing" <;> simp [hs] <;> omega
      | none => simp [h, List.countP_cons]

/-- A key of an association list always looks up to something. -/
theorem lookup_isSome_of_mem_keys {β : Type} (l : List (String × β))
    (n : String) (hn : n ∈ l.map Prod.fst) : (l.lookup n).isSome = true := by
  induction l with
  | nil => simp at hn
  | cons p t ih =>
    rw [List.map_cons, List.mem_cons] at hn
    by_cases h : n = p.1
    · simp [List.lookup, h]
    · have : n ∈ t.map Prod.fst := by
        cases hn with
        | inl hh => exact absurd hh h
        | inr hh => exact hh
      have hb : (n == p.1) = false := beq_eq_false_iff_ne.mpr h
      simp only [List.lookup, hb]
      exact ih this

/-- Counting a per-entry predicate over the (nodup) key list equals
counting it over the entries. -/
theorem countP_keys_eq (f : String → App → Bool) :
    ∀ (apps : List (String × App)), (apps.map Prod.fst).Nodup →
      (apps.map Prod.fst).countP
          (fun n => match apps.lookup n with
            | some app => f n app
            | none => false)
        = apps.countP (fun p => f p.1 p.2) := by
  intro apps
  induction apps with
  | nil => intro _; simp
  | cons p t ih =>
    intro hnd
    rw [List.map_cons] at hnd ⊢
    have hk : p.1 ∉ t.map Prod.fst := (List.nodup_cons.mp hnd).1
    have hnd2 : (t.map Prod.fst).Nodup := (List.nodup_cons.mp hnd).2
    rw [List.countP_cons, List.countP_cons]
    have hhead : (match (p :: t).lookup p.1 with
        | some app => f p.1 app
        | none => false) = f p.1 p.2 := by
      have : (p :: t).lookup p.1 = some p.2 := by
        simp [List.lookup]
      rw [this]
    have htail : (t.map Prod.fst).countP
        (fun n => match (p :: t).lookup n with
          | some app => f n app
          | none => false)
        = (t.map Prod.fst).countP
          (fun n => match t.lookup n with
            | some app => f n app
            | none => false) := by
      apply List.countP_congr
      intro n hn
      have hne : n ≠ p.1 := fun hh => hk (hh ▸ hn)
      have hb : (n == p.1) = false := beq_eq_false_iff_ne.mpr hne
      have : (p :: t).lookup n = t.lookup n := by
        simp only [List.lookup, hb]
      rw [this]
    rw [hhead, htail, ih hnd2]

/-- Disjoint boolean predicates never count above the length. -/
theorem countP_disjoint_le {α : Type} (p q : α → Bool) :
    ∀ (l : List α), (∀ a ∈ l, ¬(p a = true ∧ q a = true)) →
      l.countP p + l.countP q ≤ l.length := by
  intro l
  induction l with
  | nil => intro _; simp
  | cons a t ih =>
    intro h
    have ht := ih (fun x hx => h x (List.mem_cons_of_mem _ hx))
    have ha := h a (List.mem_cons_self _ _)
    rw [List.countP_cons, List.countP_cons, List.length_cons]
    by_cases hp : p a = true <;> by_cases hq : q a = true
    · exact absurd ⟨hp, hq⟩ ha
    · simp [hp, hq]; omega
    · simp [hp, hq]; omega
    · simp [hp, hq]; omega

/-- The property C3 asserts of the doctor summary. -/
def DoctorSummaryCorrect (env : Env)
    (statOk lookPathOk procRunning : String → Bool) (cfg : Config) : Prop :=
  let S := runDoctorSummary env statOk lookPathOk procRunning cfg
  S.total = cfg.apps.length ∧
  S.available = cfg.apps.countP (fun p =>
    (checkAppStatus env statOk lookPathOk procRunning p.1 p.2).status
      == "available") ∧
  S.missing = cfg.apps.countP (fun p =>
    (checkAppStatus env statOk lookPathOk procRunning p.1 p.2).status
      == "missing") ∧
  S.available + S.missing ≤ S.total

/-- C3. For a configuration whose app keys are unique (a Go map), the
doctor summary's `total` is the number of configured applications, its
`available` and `missing` count exactly the apps classified that way
(`no-path` apps counting toward neither), and `available + missing`
never exceeds `total`. -/
theorem doctor_summary_counts (env : Env)
    (statOk lookPathOk procRunning : String → Bool) (cfg : Config)
    (hnd : (cfg.apps.map Prod.fst).Nodup) :
    DoctorSummaryCorrect env statOk lookPathOk procRunning cfg := by
  unfold DoctorSummaryCorrect runDoctorSummary
  have hperm : List.Perm
      (List.insertionSort (fun a b : String => a ≤ b) (cfg.apps.map Prod.fst))
      (cfg.apps.map Prod.fst) :=
    List.perm_insertionSort _ _
  have hfold := foldl_doctorStep_counts env statOk lookPathOk procRunning
    cfg.apps
    (List.insertionSort (fun a b : String => a ≤ b) (cfg.apps.map Prod.fst))
    ⟨0, 0, 0, 0⟩
  have htotal : (List.insertionSort (fun a b : String => a ≤ b)
        (cfg.apps.map Prod.fst)).countP (fun n => (cfg.apps.lookup n).isSome)
      = cfg.apps.length := by
    rw [hperm.countP_eq]
    rw [List.countP_eq_length.mpr
      (fun n hn => lookup_isSome_of_mem_keys cfg.apps n hn)]
    simp
  have havail : (List.insertionSort (fun a b : String => a ≤ b)
        (cfg.apps.map Prod.fst)).countP
        (statusPred env statOk lookPathOk procRunning cfg.apps "available")
      = cfg.apps.countP (fun p =>
          (checkAppStatus env statOk lookPathOk procRunning p.1 p.2).status
            == "available") := by
    rw [hperm.countP_eq]
    exact countP_keys_eq (fun n app =>
      (checkAppStatus env statOk lookPathOk procRunning n app).status
        == "available") cfg.apps hnd
  have hmiss : (List.insertionSort (fun a b : String => a ≤ b)
        (cfg.apps.map Prod.fst)).countP
        (statusPred env statOk lookPathOk procRunning cfg.apps "missing")
      = cfg.apps.countP (fun p =>
          (checkAppStatus env statOk lookPathOk procRunning p.1 p.2).status
            == "missing") := by
    rw [hperm.countP_eq]
    exact countP_keys_eq (fun n app =>
      (checkAppStatus env statOk lookPathOk procRunning n app).status
        == "missing") cfg.apps hnd
  refine ⟨?_, ?_, ?_, ?_⟩
  · rw [hfold.1, htotal]; simp
  · rw [hfold.2.1, havail]; simp
  · rw [hfold.2.2, hmiss]; simp
  · rw [hfold.1, hfold.2.1, hfold.2.2, htotal, havail, hmiss]
    simp only [Nat.zero_add]
    rw [← havail, ← hmiss, ← htotal]
    have hle := countP_disjoint_le
      (statusPred env statOk lookPathOk procRunning cfg.apps "available")
      (statusPred env statOk lookPathOk procRunning cfg.apps "missing")
      (List.insertionSort (fun a b : String => a ≤ b)
        (cfg.apps.map Prod.fst))
      (by
        intro n _ hcon
        rcases hcon with ⟨h1, h2⟩
        unfold statusPred at h1 h2
        cases hl : cfg.apps.lookup n with
        | some app =>
          rw [hl] at h1 h2
          have e1 : (checkAppStatus env statOk lookPathOk procRunning
              n app).status = "available" := by simpa using h1
          have e2 : (checkAppStatus env statOk lookPathOk procRunning
              n app).status = "missing" := by simpa using h2
          rw [e1] at e2
          exact absurd e2 (by decide)
        | none =>
          rw [hl] at h1
          simp at h1)
    calc (List.insertionSort (fun a b : String => a ≤ b)
            (cfg.apps.map Prod.fst)).countP
            (statusPred env statOk lookPathOk procRunning cfg.apps "available")
          + (List.insertionSort (fun a b : String => a ≤ b)
            (cfg.apps.map Prod.fst)).countP
            (statusPred env statOk lookPathOk procRunning cfg.apps "missing")
        ≤ (List.insertionSort (fun a b : String => a ≤ b)
            (cfg.apps.map Prod.fst)).length := hle
      _ = (cfg.apps.map Prod.fst).length := hperm.length_eq
      _ = cfg.apps.length := by simp
      _ = (cfg.apps.map Prod.fst).countP (fun n => (cfg.apps.lookup n).isSome) := by
          rw [List.countP_eq_length.mpr
            (fun n hn => lookup_isSome_of_mem_keys cfg.apps n hn)]
          simp
      _ = (List.insertionSort (fun a b : String => a ≤ b)
            (cfg.apps.map Prod.fst)).countP
            (fun n => (cfg.apps.lookup n).isSome) := (hperm.countP_eq _).symm

/-- A concrete environment used by the concrete-input theorems. -/
def envLinux : Env := ⟨"linux", "/home/u", fun _ => none, "/work"⟩

/-- Concrete filesystem oracle: only `/bin/ls` exists on disk. -/
def statOkW : String → Bool := fun p => p == "/bin/ls"

/-- Concrete PATH oracle: no bare command resolves. -/
def lookPathOkW : String → Bool := fun _ => false

/-- Concrete process oracle: nothing is running. -/
def procRunningW : String → Bool := fun _ => false

/-- Concrete two-app configuration: one available, one missing. -/
def cfgW : Config :=
  ⟨[("alpha", ⟨[("linux", "/bin/ls")], []⟩),
    ("beta", ⟨[("linux", "nosuch")], []⟩)], []⟩

/-- Witness for C3 at a concrete configuration. -/
theorem doctor_summary_counts_witness :
    DoctorSummaryCorrect envLinux statOkW lookPathOkW procRunningW cfgW :=
  doctor_summary_counts envLinux statOkW lookPathOkW procRunningW cfgW
    (by decide)

/-- Concrete app with no linux path but an explicit kill pattern. -/
def appNoPath : App := ⟨[("windows", "x.exe")], ["patt"]⟩

/-- Oracle claiming every pattern matches a running process. -/
def procAll : String → Bool := fun _ => true

/-- C8 counterexample: an app with no path for the current OS but an
explicit kill pattern that matches a running process is classified
`no-path` with `running = false` — the early return skips the running
check, contrary to the claim that it is performed independently. -/
theorem checkAppStatus_no_running_check_for_no_path :
    appNoPath.GetKillPatterns envLinux = ["patt"] ∧
    procAll "patt" = true ∧
    (checkAppStatus envLinux statOkW lookPathOkW procAll "a" appNoPath).status
      = "no-path" ∧
    (checkAppStatus envLinux statOkW lookPathOkW procAll "a" appNoPath).running
      = false := by
  refine ⟨rfl, rfl, rfl, rfl⟩

/-- C8 amended: the kill-pattern display is computed for every app
independently of everything else, and the `running` flag is computed
independently of the availability outcome (the existence oracles) — but
only for apps that have a launch path; a `no-path` app returns early with
`running = false`. -/
theorem checkAppStatus_running_amended (env : Env)
    (statOk lookPathOk procRunning : String → Bool) (name : String)
    (app : App) :
    ((checkAppStatus env statOk lookPathOk procRunning name app).killPattern
        = String.intercalate ", " (app.GetKillPatterns env)) ∧
    (app.GetLaunchPath env ≠ "" →
      (checkAppStatus env statOk lookPathOk procRunning name app).running
        = (app.GetKillPatterns env).any procRunning) ∧
    (app.GetLaunchPath env = "" →
      (checkAppStatus env statOk lookPathOk procRunning name app).running
        = false) ∧
    (∀ statOk2 lookPathOk2 : String → Bool,
      (checkAppStatus env statOk2 lookPathOk2 procRunning name app).running
        = (checkAppStatus env statOk lookPathOk procRunning name app).running) := by
  by_cases h : app.GetLaunchPath env = ""
  · refine ⟨?_, fun hc => absurd h hc, fun _ => ?_, fun s2 l2 => ?_⟩
    · unfold checkAppStatus; dsimp only; rw [if_pos h]
    · unfold checkAppStatus; dsimp only; rw [if_pos h]
    · unfold checkAppStatus; dsimp only; rw [if_pos h, if_pos h]
  · refine ⟨?_, fun _ => ?_, fun hc => absurd hc h, fun s2 l2 => ?_⟩
    · unfold checkAppStatus; dsimp only; rw [if_neg h]
    · unfold checkAppStatus; dsimp only; rw [if_neg h]
    · unfold checkAppStatus; dsimp only; rw [if_neg h, if_neg h]

/-! ### Launch-argument preparation (resolver utilities) -/

/-- `isURL`: known schemes or any `://` occurrence. -/
def isURL (s : String) : Bool :=
  strStartsWith s "http://" || strStartsWith s "https://" ||
    strStartsWith s "ftp://" || strStartsWith s "file://" ||
    strContainsSub s "://"

/-- `expandDot`: expand `.`, `./`, `..` and `../` against the working
directory (`os.Getwd` modelled as always succeeding with `env.cwd`). -/
def expandDot (env : Env) (path : String) : String :=
  if path = "" then path
  else if path = "." then env.cwd
  else if strStartsWith path "./" then goJoin env.cwd (path.drop 2)
  else if path = ".." then goDir env.cwd
  else if strStartsWith path "../" then goJoin (goDir env.cwd) (path.drop 3)
  else path

/-- `resolveTarget`: URLs pass through unchanged; every other argument is
tilde- and dot-expanded and, when still relative, made absolute against
the working directory (`filepath.Abs`).  It consults no existence check
and has no flag-prefix case. -/
def resolveTarget (env : Env) (target : String) : String :=
  if isURL target then target
  else
    let t1 := expandTilde env target
    let t2 := expandDot env t1
    if strStartsWith t2 "/" then t2 else goJoin env.cwd t2

/-- `resolveTargets`: `resolveTarget` applied to every argument. -/
def resolveTargets (env : Env) (targets : List String) : List String :=
  targets.map (resolveTarget env)

/-- C6 counterexample: the argument preparation `LaunchApp` applies
rewrites a non-existent relative argument (`hello`) and a flag-like
argument (`-v`) to absolute paths instead of passing them through
unchanged. -/
theorem resolveTargets_changes_plain_args :
    resolveTargets envLinux ["hello", "-v"] = ["/work/hello", "/work/-v"] ∧
    ("/work/hello" ≠ "hello") ∧ ("/work/-v" ≠ "-v") := by
  refine ⟨by decide, by decide, by decide⟩

/-- C6 amended: before spawning, `LaunchApp`'s argument preparation
passes URLs through unchanged and canonicalizes every other argument —
tilde/dot expansion and then absolutization against the working directory
when still relative — regardless of flag prefix or local existence. -/
theorem resolveTarget_amended (env : Env) (a : String) :
    (isURL a = true → resolveTarget env a = a) ∧
    (isURL a = false →
      resolveTarget env a =
        (if strStartsWith (expandDot env (expandTilde env a)) "/"
         then expandDot env (expandTilde env a)
         else goJoin env.cwd (expandDot env (expandTilde env a)))) ∧
    resolveTargets env [a] = [resolveTarget env a] := by
  refine ⟨fun h => ?_, fun h => ?_, rfl⟩
  · unfold resolveTarget
    rw [if_pos h]
  · unfold resolveTarget
    rw [if_neg (by simp [h])]

/-! ### Configuration persistence (shared config package) -/

/-- Modelled from the spec: one application entry of the persisted YAML
configuration document (§6 of the spec) — the inline per-OS path map and
the optional `kill` list (`kill,omitempty`: omitted when empty). -/
structure DocApp where
  paths : List (String × String)
  kill : Option (List String)
deriving Repr, DecidableEq

/-- Modelled from the spec: the persisted configuration document, with
optional `apps` and `aliases` sections. -/
structure ConfigDoc where
  apps : Option (List (String × DocApp))
  aliases : Option (List (String × String))
deriving Repr, DecidableEq

/-- Modelled from the spec: `SaveConfig` marshals the configuration to
the document verbatim; an empty kill list is omitted (`omitempty`). -/
def SaveConfigDoc (c : Config) : ConfigDoc :=
  { apps := some (c.apps.map (fun p =>
      (p.1, ({ paths := p.2.paths,
               kill := if p.2.kill = [] then none
                 else some p.2.kill } : DocApp)))),
    aliases := some c.aliases }

/-- Modelled from the spec: `LoadConfig` unmarshals the document (an
absent `kill` reads back as the empty list) and runs the source's nil-map
initialization (absent sections become empty maps). -/
def LoadConfigDoc (d : ConfigDoc) : Config :=
  { apps := (d.apps.getD []).map (fun p =>
      (p.1, ({ paths := p.2.paths, kill := p.2.kill.getD [] } : App))),
    aliases := d.aliases.getD [] }

/-- Save-then-load is the identity on configurations. -/
theorem config_roundtrip_eq (c : Config) :
    LoadConfigDoc (SaveConfigDoc c) = c := by
  unfold LoadConfigDoc SaveConfigDoc
  dsimp only [Option.getD_some]
  rw [List.map_map]
  have hmap : c.apps.map ((fun p : String × DocApp =>
        (p.1, ({ paths := p.2.paths, kill := p.2.kill.getD [] } : App))) ∘
      (fun p : String × App =>
        (p.1, ({ paths := p.2.paths,
                 kill := if p.2.kill = [] then none
                   else some p.2.kill } : DocApp))))
      = c.apps.map id := by
    apply List.map_congr_left
    intro p _
    cases p with
    | mk n a =>
      cases a with
      | mk ps k =>
        by_cases h : k = [] <;> simp [Function.comp_def, h]
  rw [hmap, List.map_id]

/-- C9. Round-trip: saving a configuration and loading it back yields an
equal set of application keys, equal entries (per-OS path maps and
kill-pattern lists), and an equal alias map. -/
theorem config_roundtrip (c : Config) :
    (LoadConfigDoc (SaveConfigDoc c)).apps.map Prod.fst
        = c.apps.map Prod.fst ∧
    (∀ k, (LoadConfigDoc (SaveConfigDoc c)).apps.lookup k
        = c.apps.lookup k) ∧
    (LoadConfigDoc (SaveConfigDoc c)).aliases = c.aliases := by
  rw [config_roundtrip_eq]
  exact ⟨rfl, fun k => rfl, rfl⟩

/-- The Go `Config` value right after `yaml.Unmarshal`, where either map
may still be nil (`none`). -/
structure RawConfig where
  apps : Option (List (String × App))
  aliases : Option (List (String × String))
deriving Repr

/-- The nil-map initialization block of `loadConfig`: replace a nil apps
map, then a nil aliases map, by fresh empty maps. -/
def initEmptyMaps (c : RawConfig) : RawConfig :=
  let c1 := if c.apps = none then { c with apps := some [] } else c
  if c1.aliases = none then { c1 with aliases := some [] } else c1

/-- C10. After a successful load both maps are non-nil: absent sections
are initialized to empty maps and present ones are kept, so callers can
index both without a nil check. -/
theorem loadConfig_initializes_maps (c : RawConfig) :
    (initEmptyMaps c).apps.isSome = true ∧
    (initEmptyMaps c).aliases.isSome = true ∧
    (c.apps = none → (initEmptyMaps c).apps = some []) ∧
    (c.aliases = none → (initEmptyMaps c).aliases = some []) ∧
    (∀ m, c.apps = some m → (initEmptyMaps c).apps = some m) ∧
    (∀ m, c.aliases = some m → (initEmptyMaps c).aliases = some m) := by
  unfold initEmptyMaps
  cases c with
  | mk apps aliases =>
    cases apps <;> cases aliases <;> simp

end Openx
